import Mathlib

/-!
Verification development for the office-to-md document conversion engine
(`enhanced_parser.py`).  The Python code is shallowly embedded: Python
strings are Lean `String`s (with character-level helpers on `List Char`),
Python floats used only for layout coordinates are modelled as `Int`
(the only arithmetic on them is comparison, `± 5` slack and the `0.6`
coverage threshold, which is expressed exactly over integers), Python
`None` becomes `Option`, exceptions become `Except`, and the transient
`self._last_table_block_indices` field is threaded explicitly.
-/

set_option maxHeartbeats 1600000

namespace WebCode

/-! ### Python string primitives on `List Char` -/

/-- Python whitespace test used by `str.strip` and friends. -/
def pyWs (c : Char) : Bool := c.isWhitespace

/-- Embeds `str.strip()` on the character list. -/
def stripC (l : List Char) : List Char :=
  ((l.dropWhile pyWs).reverse.dropWhile pyWs).reverse

/-- Embeds `str.strip()`. -/
def pyStrip (s : String) : String := ⟨stripC s.data⟩

/-- Embeds `str.rstrip()` on the character list. -/
def rstripC (l : List Char) : List Char := (l.reverse.dropWhile pyWs).reverse

/-- Embeds `str.rstrip()`. -/
def pyRstrip (s : String) : String := ⟨rstripC s.data⟩

/-- Embeds `str.replace(c, r)` for a single-character pattern `c`. -/
def replaceChar (c : Char) (r : List Char) (l : List Char) : List Char :=
  l.flatMap (fun a => if a = c then r else [a])

/-- Embeds `str.lower()` on the character list (ASCII case mapping). -/
def pyLowerC (l : List Char) : List Char := l.map Char.toLower

/-- Embeds `str.lower()`. -/
def pyLower (s : String) : String := ⟨pyLowerC s.data⟩

/-- Python `needle in hay` substring test. -/
def containsSub (needle : List Char) : List Char → Bool
  | [] => needle.isEmpty
  | c :: rest => needle.isPrefixOf (c :: rest) || containsSub needle rest

/-- Python `str.startswith`. -/
def startsWithC (p l : List Char) : Bool := p.isPrefixOf l

/-- Python `str.isdigit()` (restricted to ASCII digits in this model). -/
def isDigitsB (l : List Char) : Bool := !l.isEmpty && l.all Char.isDigit

/-- Truth of Python `not s.strip()`: the string is empty or all whitespace. -/
def blankC (l : List Char) : Bool := l.all pyWs

/-! ### Shared markdown table pieces -/

/-- Synthetic column label `列{i+1}` used for missing headers. -/
def colLabel (i : Nat) : String := "列" ++ toString (i + 1)

/-- A markdown table line from already-clean cells. -/
def mkRowLine (cells : List String) : String :=
  "| " ++ String.intercalate " | " cells ++ " |"

/-- The separator line with `n` dash cells. -/
def mkSepLine (n : Nat) : String := mkRowLine (List.replicate n "---")

/-- Pad a row with empty strings up to `n` cells. -/
def padRow (n : Nat) (r : List String) : List String :=
  r ++ List.replicate (n - r.length) ""

/-! ### `_convert_pdf_table_to_markdown` -/

/-- Cell cleaning in `_convert_pdf_table_to_markdown`: `None` becomes `""`,
otherwise `str(cell).strip().replace('\n', ' ').replace('|', '\\|')`. -/
def clean_pdf_cell : Option String → String
  | none => ""
  | some s => ⟨replaceChar '|' ['\\', '|'] (replaceChar '\n' [' '] (stripC s.data))⟩

/-- The cleaned cell matrix. -/
def pdf_cleaned_rows (td : List (List (Option String))) : List (List String) :=
  td.map (fun r => r.map clean_pdf_cell)

/-- Rows kept after dropping rows whose every cleaned cell is empty. -/
def pdf_filtered_rows (td : List (List (Option String))) : List (List String) :=
  (pdf_cleaned_rows td).filter (fun r => r.any (fun c => c != ""))

/-- Embeds `max(len(row) for row in filtered_data)` (0 on the empty list). -/
def pdf_max_cols (td : List (List (Option String))) : Nat :=
  (pdf_filtered_rows td).foldl (fun m r => max m r.length) 0

/-- Filtered rows padded to the uniform column count. -/
def pdf_normalized (td : List (List (Option String))) : List (List String) :=
  (pdf_filtered_rows td).map (padRow (pdf_max_cols td))

/-- Embeds `not h or (h.isdigit() and len(h) <= 3)` for a header candidate cell. -/
def emptyOrShortNum (h : String) : Bool :=
  (h == "") || (isDigitsB h.data && decide (h.length ≤ 3))

/-- Header/data split of `_convert_pdf_table_to_markdown`: if every cell of
row 0 is empty or a short numeric string, synthesize labels and keep row 0 as
data; otherwise row 0 is the header and the rest is data. -/
def pdf_header_data (normalized : List (List String)) (maxCols : Nat) :
    List String × List (List String) :=
  match normalized with
  | [] => ([], [])
  | h0 :: rest =>
    if h0.all emptyOrShortNum then ((List.range maxCols).map colLabel, h0 :: rest)
    else (h0, rest)

/-- Embeds `headers = [h if h else f"列{i+1}" for i, h in enumerate(headers)]`. -/
def replaceEmptyHeaders (hs : List String) : List String :=
  hs.enum.map (fun p => if p.2 = "" then colLabel p.1 else p.2)

/-- The table title line `\n**表格 {k}** (第{p}页):\n`. -/
def pdf_table_title (pageNum tableIdx : Nat) : String :=
  "\n**表格 " ++ toString (tableIdx + 1) ++ "** (第" ++ toString (pageNum + 1) ++ "页):\n"

/-- A data line: empty cells render as the `-` placeholder. -/
def pdf_data_line (r : List String) : String :=
  mkRowLine (r.map (fun c => if c = "" then "-" else c))

/-- Embeds `_convert_pdf_table_to_markdown`. -/
def convert_pdf_table_to_markdown (td : List (List (Option String)))
    (pageNum tableIdx : Nat) : List String :=
  if td = [] then []
  else if pdf_filtered_rows td = [] then []
  else
    let maxCols := pdf_max_cols td
    let hd := pdf_header_data (pdf_normalized td) maxCols
    let headers := replaceEmptyHeaders hd.1
    pdf_table_title pageNum tableIdx :: mkRowLine headers ::
      mkSepLine headers.length :: hd.2.map pdf_data_line

/-! ### `_convert_list_to_markdown_table` (xlsx/xls sheets) -/

/-- Cell cleaning in `_convert_list_to_markdown_table`:
`str(cell).replace('\n', '<br>').replace('|', '\\|')` (no strip). -/
def clean_list_cell (c : String) : String :=
  ⟨replaceChar '|' ['\\', '|'] (replaceChar '\n' "<br>".data c.data)⟩

/-- Padded and cleaned matrix of `_convert_list_to_markdown_table`. -/
def list_normalized (td : List (List String)) : List (List String) :=
  let maxCols := td.foldl (fun m r => max m r.length) 0
  td.map (fun r => (padRow maxCols r).map clean_list_cell)

/-- Embeds `_convert_list_to_markdown_table`. -/
def convert_list_to_markdown_table (td : List (List String)) : List String :=
  if td = [] then ["*空表格*"]
  else
    let maxCols := td.foldl (fun m r => max m r.length) 0
    match list_normalized td with
    | [] => []
    | h0 :: rest =>
      let headers := if rest = [] then (List.range maxCols).map colLabel else h0
      let dataRows := if rest = [] then h0 :: rest else rest
      mkRowLine headers :: mkSepLine headers.length :: dataRows.map mkRowLine

/-! ### `_convert_docx_table_to_markdown`
The docx table object is abstracted to its matrix of `cell.text` values. -/

/-- Data cell in the docx renderer:
`cell.text.strip().replace('\n', '<br>')`, empty cells become `-`. -/
def docx_clean_data_cell (c : String) : String :=
  let t : String := ⟨replaceChar '\n' "<br>".data (stripC c.data)⟩
  if t = "" then "-" else t

/-- Header cell in the docx renderer: `cell.text.strip() or f"列{i+1}"`. -/
def docx_header_cell (i : Nat) (c : String) : String :=
  if pyStrip c = "" then colLabel i else pyStrip c

/-- Embeds `_convert_docx_table_to_markdown` on the matrix of cell texts. -/
def convert_docx_table_to_markdown (rows : List (List String)) : List String :=
  match rows with
  | [] => []
  | h0 :: rest =>
    if !(h0 :: rest).any (fun r => r.any (fun c => pyStrip c != "")) then ["*[空表格]*"]
    else
      let headers := h0.enum.map (fun p => docx_header_cell p.1 p.2)
      mkRowLine headers :: mkSepLine headers.length ::
        rest.map (fun r => mkRowLine (r.map docx_clean_data_cell))

/-! ### `_is_header_or_footer` (HeaderFooterFilter) -/

/-- Embeds `\s*` consumption. -/
def dropWs (l : List Char) : List Char := l.dropWhile pyWs

/-- Embeds `\d+` consumption: requires at least one digit, consumes the maximal run. -/
def digits1 : List Char → Option (List Char)
  | c :: rest => if c.isDigit then some (rest.dropWhile Char.isDigit) else none
  | [] => none

/-- Embeds `^第\s*\d+\s*页$`. -/
def matchZhPage : List Char → Bool
  | '第' :: r =>
    match digits1 (dropWs r) with
    | some r2 => dropWs r2 == ['页']
    | none => false
  | _ => false

/-- Embeds `^-\s*\d+\s*-$`. -/
def matchDashPage : List Char → Bool
  | '-' :: r =>
    match digits1 (dropWs r) with
    | some r2 => dropWs r2 == ['-']
    | none => false
  | _ => false

/-- Embeds `^\d+\s*/\s*\d+$`. -/
def matchSlashPage (l : List Char) : Bool :=
  match digits1 l with
  | some r =>
    match dropWs r with
    | '/' :: r2 =>
      match digits1 (dropWs r2) with
      | some r3 => r3.isEmpty
      | none => false
    | _ => false
  | none => false

/-- Embeds `^Page\s+\d+$` with `re.IGNORECASE`. -/
def matchEnPage (l : List Char) : Bool :=
  let ll := pyLowerC l
  if startsWithC "page".data ll then
    match ll.drop 4 with
    | c :: r2 =>
      pyWs c &&
        match digits1 (dropWs r2) with
        | some r3 => r3.isEmpty
        | none => false
    | [] => false
  else false

/-- Embeds `^\d+\s+of\s+\d+$` with `re.IGNORECASE`. -/
def matchOfPage (l : List Char) : Bool :=
  let ll := pyLowerC l
  match digits1 ll with
  | some r =>
    match r with
    | c :: r2 =>
      pyWs c &&
        (let r3 := dropWs r2
         if startsWithC "of".data r3 then
           match r3.drop 2 with
           | d :: r5 =>
             pyWs d &&
               match digits1 (dropWs r5) with
               | some r6 => r6.isEmpty
               | none => false
           | [] => false
         else false)
    | [] => false
  | none => false

/-- The fixed page-number pattern set of `_is_header_or_footer`. -/
def page_pattern_match (l : List Char) : Bool :=
  matchZhPage l || matchDashPage l || matchSlashPage l || matchEnPage l || matchOfPage l

/-- The copyright/confidentiality keyword list of `_is_header_or_footer`. -/
def footer_keywords : List String :=
  ["版权所有", "保留所有权利", "all rights reserved", "copyright",
   "机密", "confidential", "内部资料"]

/-- Embeds `_is_header_or_footer`.  `allTexts` is `all_paragraphs_text`: the stripped
text of every non-empty paragraph of the document. -/
def is_header_or_footer (text : String) (allTexts : List String) : Bool :=
  let t := pyStrip text
  if t = "" then false
  else
    (isDigitsB t.data && decide (t.length ≤ 4))
    || page_pattern_match t.data
    || (decide (t.length < 100) && decide (allTexts.count t > 3))
    || (footer_keywords.any (fun k => containsSub k.data (pyLowerC t.data))
          && decide (t.length < 150))

/-! ### `_process_docx_paragraph` (ParagraphClassifier) -/

/-- Paragraph alignment; only CENTER is ever compared against. -/
inductive Alignment where
  | center
  | other
deriving DecidableEq

/-- The `heading_levels` table of `_get_heading_level`. -/
def heading_levels : List (String × Nat) :=
  [("Heading 1", 1), ("Title", 1), ("Heading 2", 2), ("Subtitle", 2),
   ("Heading 3", 3), ("Heading 4", 4), ("Heading 5", 5), ("Heading 6", 6)]

/-- Embeds `_get_heading_level`: dictionary lookup with default `1`. -/
def get_heading_level (s : String) : Nat := (heading_levels.lookup s).getD 1

/-- Embeds `'#' * level`. -/
def hashes (n : Nat) : String := ⟨List.replicate n '#'⟩

/-- Python `\w` (ASCII model). -/
def wordChar (c : Char) : Bool := c.isAlphanum || c = '_'

/-- Embeds `[\d\w]+` consumption: at least one word character, maximal run. -/
def word1 : List Char → Option (List Char)
  | c :: rest => if wordChar c then some (rest.dropWhile wordChar) else none
  | [] => none

/-- Embeds `re.match(r'^\s*[\d\w]+[.)]\s+', text)` as a Bool. -/
def any_list_match (l : List Char) : Bool :=
  match word1 (dropWs l) with
  | some r2 =>
    match r2 with
    | c :: d :: _ => (c = '.' || c = ')') && pyWs d
    | _ => false
  | none => false

/-- Embeds `re.match(r'^\s*\d+[.)]\s+', text)` as a Bool. -/
def ord_list_match (l : List Char) : Bool :=
  match digits1 (dropWs l) with
  | some r2 =>
    match r2 with
    | c :: d :: _ => (c = '.' || c = ')') && pyWs d
    | _ => false
  | none => false

/-- Backtracking for `\s+(.+)`: try the longest whitespace run `j` first; the
group needs at least one character and `.` does not match a newline. -/
def ordCapAux (rem : List Char) : Nat → Option (List Char)
  | 0 => none
  | j + 1 =>
    match rem.drop (j + 1) with
    | c :: g => if c ≠ '\n' then some ((c :: g).takeWhile (fun a => a ≠ '\n'))
                else ordCapAux rem j
    | [] => ordCapAux rem j

/-- Embeds `re.match(r'^\s*\d+[.)]\s+(.+)', text)`, returning group 1. -/
def ord_capture (l : List Char) : Option (List Char) :=
  match digits1 (dropWs l) with
  | none => none
  | some r2 =>
    match r2 with
    | c :: rem =>
      if c = '.' || c = ')' then ordCapAux rem (rem.takeWhile pyWs).length else none
    | [] => none

/-- Embeds `text.strip().startswith(('•', '-', '*'))`. -/
def bulletStart : List Char → Bool
  | c :: _ => c = '•' || c = '-' || c = '*'
  | [] => false

/-- Embeds `re.sub(r'^\s*[•\-*]\s+', '', text)`: strip the bullet marker prefix if it
matches, otherwise leave the text unchanged. -/
def bullet_sub (l : List Char) : List Char :=
  match dropWs l with
  | c :: rem =>
    if c = '•' || c = '-' || c = '*' then
      match rem with
      | d :: _ => if pyWs d then rem.dropWhile pyWs else l
      | [] => l
    else l
  | [] => l

/-- Embeds `_process_docx_paragraph` on the paragraph's text, style name and
alignment (the three attributes the source reads). -/
def process_docx_paragraph (text styleName : String) (align : Alignment) :
    List String :=
  let t := pyStrip text
  if t = "" then [""]
  else if startsWithC "Heading".data styleName.data then
    [hashes (get_heading_level styleName) ++ " " ++ t, ""]
  else if pyLower styleName = "title" || pyLower styleName = "subtitle" then
    ["# " ++ t, ""]
  else
    (if align = Alignment.center then
      if decide (t.length < 50) && !t.data.contains '。' && !t.data.contains '.' then
        ["## " ++ t]
      else
        ["**" ++ t ++ "**"]
    else
      if any_list_match t.data || bulletStart t.data then
        if ord_list_match t.data then
          match ord_capture t.data with
          | some g => ["1. " ++ String.mk g]
          | none => []
        else
          ["- " ++ String.mk (bullet_sub t.data)]
      else
        [t]) ++ [""]

/-! ### `_clean_markdown` (MarkdownAssembler) -/

/-- Embeds `"\n".join` at the character level. -/
def joinNl (ls : List (List Char)) : List Char := (ls.intersperse ['\n']).flatten

/-- Embeds `content.split('\n')` at the character level. -/
def splitNl : List Char → List (List Char)
  | [] => [[]]
  | c :: rest =>
    if c = '\n' then [] :: splitNl rest
    else
      match splitNl rest with
      | h :: t => (c :: h) :: t
      | [] => [[c]]

/-- Worker for `re.sub(r'\n{3,}', '\n\n', content)`: `pending` counts the
newline run currently being read; a finished run of three or more newlines is
emitted as exactly two. -/
def collapseGo : Nat → List Char → List Char
  | pending, [] => List.replicate (if pending ≥ 3 then 2 else pending) '\n'
  | pending, c :: rest =>
    if c = '\n' then collapseGo (pending + 1) rest
    else List.replicate (if pending ≥ 3 then 2 else pending) '\n' ++ c :: collapseGo 0 rest

/-- Embeds `re.sub(r'\n{3,}', '\n\n', content)`. -/
def collapseNl (l : List Char) : List Char := collapseGo 0 l

/-- Embeds `_clean_markdown` before the final join: join, collapse newline runs,
right-strip each line, drop leading and trailing blank lines. -/
def clean_markdown_lines (lines : List String) : List (List Char) :=
  let ls := (splitNl (collapseNl (joinNl (lines.map String.data)))).map rstripC
  ((ls.dropWhile blankC).reverse.dropWhile blankC).reverse

/-- Embeds `_clean_markdown`. -/
def clean_markdown (lines : List String) : String :=
  ⟨joinNl (clean_markdown_lines lines)⟩

/-- The `_parse_docx` document-level placeholder text. -/
def empty_docx_placeholder : String := "*Document content is empty or cannot be parsed*"

/-- The end of `_parse_docx`: substitute the placeholder when the cleaned
markdown strips to nothing. -/
def docx_result_markdown (lines : List String) : String :=
  let r := clean_markdown lines
  if pyStrip r = "" then empty_docx_placeholder else r

/-! ### Page data model
`page.get_text("dict")` supplies blocks (type 0 = text with lines of spans,
type 1 = image), each with a bounding box.  Layout coordinates are modelled
as `Int`: the source only compares them and shifts them by the constant 5. -/

structure Bbox where
  x0 : Int
  y0 : Int
  x1 : Int
  y1 : Int
deriving DecidableEq

structure Span where
  text : String
deriving DecidableEq

structure PLine where
  bbox : Bbox
  spans : List Span
deriving DecidableEq

inductive PBlock where
  | text (bbox : Bbox) (lines : List PLine)
  | image (bbox : Bbox)
deriving DecidableEq

/-- Embeds `" ".join(span.get("text", "").strip() for span in spans).strip()`. -/
def line_text (l : PLine) : String :=
  pyStrip (String.intercalate " " (l.spans.map (fun s => pyStrip s.text)))

/-! ### `_detect_tables_from_text_optimized` (TableDetector) -/

/-- One entry of the detector's `text_blocks` list: a non-empty line of text
with its line bbox and the index of the page block it came from. -/
structure TextLine where
  text : String
  x0 : Int
  y0 : Int
  x1 : Int
  y1 : Int
  block_idx : Nat
deriving DecidableEq

/-- The detector's `text_blocks`: every line with spans and non-empty joined
text, tagged with its block index, in page order. -/
def page_text_lines (blocks : List PBlock) : List TextLine :=
  blocks.enum.flatMap (fun p =>
    match p.2 with
    | PBlock.text _ lines =>
      lines.filterMap (fun ln =>
        if ln.spans.isEmpty then none
        else
          let t := line_text ln
          if t = "" then none
          else some ⟨t, ln.bbox.x0, ln.bbox.y0, ln.bbox.x1, ln.bbox.y1, p.1⟩)
    | PBlock.image _ => [])

/-- Embeds `text_blocks.sort(key=lambda b: b["y0"])` (Python sorts are stable). -/
def sortByY (ls : List TextLine) : List TextLine :=
  List.insertionSort (fun a b => a.y0 ≤ b.y0) ls

/-- Embeds `current_row.sort(key=lambda b: b["x0"])`. -/
def sortByX (row : List TextLine) : List TextLine :=
  List.insertionSort (fun a b => a.x0 ≤ b.x0) row

/-- The row-clustering loop: a line joins the current row when its `y0` is
within the tolerance 5 of the previous line's `y0` (`last_y` is updated to
each member, so the anchor drifts). -/
def groupRowsGo (cur : List TextLine) (lastY : Int) :
    List TextLine → List (List TextLine)
  | [] => [sortByX cur]
  | b :: rest =>
    if (b.y0 - lastY).natAbs < 5 then groupRowsGo (cur ++ [b]) b.y0 rest
    else sortByX cur :: groupRowsGo [b] b.y0 rest

/-- Vertical clustering of the y-sorted lines into rows. -/
def cluster_rows : List TextLine → List (List TextLine)
  | [] => []
  | b :: rest => groupRowsGo [b] b.y0 rest

/-- Embeds `max(set(col_counts), key=col_counts.count)`.  CPython's set iteration
order is implementation defined; the model resolves frequency ties to the
first distinct value in occurrence order.  Acceptance below is independent of
the tie-break: tied modes can never reach 60% coverage. -/
def mode_cols (counts : List Nat) : Nat :=
  match counts.eraseDups with
  | [] => 0
  | d :: ds => ds.foldl (fun best v => if counts.count v > counts.count best then v else best) d

/-- Embeds `col_counts.count(most_common_cols) >= len(rows) * 0.6 and most_common_cols > 1`.
`count >= len * 0.6` for integer `count` is exactly `5 * count >= 3 * len`
(the float rounding of `len * 0.6` never crosses an integer). -/
def detect_accept (rows : List (List TextLine)) : Bool :=
  let counts := rows.map List.length
  let mode := mode_cols counts
  decide (5 * counts.count mode ≥ 3 * rows.length) && decide (mode > 1)

/-- The clustered rows of a page. -/
def detect_rows (blocks : List PBlock) : List (List TextLine) :=
  cluster_rows (sortByY (page_text_lines blocks))

/-- The modal column count of a page's clustered rows. -/
def detect_mode (blocks : List PBlock) : Nat :=
  mode_cols ((detect_rows blocks).map List.length)

/-- The detector's `table_data`: cells of the rows whose column count equals
the mode; the other rows are dropped. -/
def detect_table_data (blocks : List PBlock) : List (List String) :=
  ((detect_rows blocks).filter (fun r => r.length == detect_mode blocks)).map
    (fun r => r.map (fun c => c.text))

/-- The block indices consumed by the kept rows (`block_idx_set`; downstream
only membership and the minimum are used, so the order is irrelevant). -/
def detect_consumed (blocks : List PBlock) : List Nat :=
  (((detect_rows blocks).filter (fun r => r.length == detect_mode blocks)).flatMap
    (fun r => r.map (fun c => c.block_idx))).eraseDups

/-- Embeds `_detect_tables_from_text_optimized`: the returned table list paired with
the `self._last_table_block_indices` assignment (empty when nothing is set). -/
def detect_tables_from_text (blocks : List PBlock) (pageNum : Nat) :
    List (List String) × List Nat :=
  if (page_text_lines blocks).length < 3 then ([], [])
  else
    let rows := detect_rows blocks
    if rows.length < 2 then ([], [])
    else if detect_accept rows then
      let td := detect_table_data blocks
      if td = [] then ([], [])
      else
        let md := convert_pdf_table_to_markdown (td.map (fun r => r.map some)) pageNum 0
        if md = [] then ([], []) else ([md], detect_consumed blocks)
    else ([], [])

/-! ### `_get_ordered_content_blocks_optimized` (ContentOrderer) -/

inductive CType where
  | text
  | table
  | image
deriving DecidableEq

/-- A content block's payload: a string for text/image blocks, a list of
markdown lines for table blocks. -/
inductive CVal where
  | str (s : String)
  | lines (ls : List String)
deriving DecidableEq

structure CBlock where
  ctype : CType
  content : CVal
  y_pos : Int
  sort_key : Int × Int
deriving DecidableEq

inductive TKind where
  | standard
  | detected
deriving DecidableEq

/-- One entry of the `tables` argument as built by
`_extract_pdf_tables_optimized`. -/
structure TableInfo where
  content : List String
  bbox : Option Bbox
  y_pos : Int
  kind : TKind
deriving DecidableEq

/-- Lexicographic order on `sort_key`, as Python compares the key tuples. -/
def keyLe (a b : CBlock) : Prop :=
  a.sort_key.1 < b.sort_key.1 ∨ (a.sort_key.1 = b.sort_key.1 ∧ a.sort_key.2 ≤ b.sort_key.2)

instance : DecidableRel keyLe := fun a b => by unfold keyLe; infer_instance

instance : IsTotal CBlock keyLe := by
  constructor
  intro a b
  rcases lt_trichotomy a.sort_key.1 b.sort_key.1 with h | h | h
  · exact Or.inl (Or.inl h)
  · rcases le_total a.sort_key.2 b.sort_key.2 with h2 | h2
    · exact Or.inl (Or.inr ⟨h, h2⟩)
    · exact Or.inr (Or.inr ⟨h.symm, h2⟩)
  · exact Or.inr (Or.inl h)

instance : IsTrans CBlock keyLe := by
  constructor
  intro a b c hab hbc
  rcases hab with h | ⟨he, h2⟩
  · rcases hbc with h3 | ⟨he3, _⟩
    · exact Or.inl (h.trans h3)
    · exact Or.inl (he3 ▸ h)
  · rcases hbc with h3 | ⟨he3, h4⟩
    · exact Or.inl (he ▸ h3)
    · exact Or.inr ⟨he.trans he3, h2.trans h4⟩

/-- The `± 5`-slack containment test of a text block inside a native table's
bbox. -/
def bbox_in_table (b tb : Bbox) : Bool :=
  decide (b.x0 ≥ tb.x0 - 5) && decide (b.x1 ≤ tb.x1 + 5) &&
    decide (b.y0 ≥ tb.y0 - 5) && decide (b.y1 ≤ tb.y1 + 5)

/-- Embeds `[t for t in tables if t.get('type') == 'standard' and t.get('bbox')]`. -/
def standard_tables (tables : List TableInfo) : List TableInfo :=
  tables.filter (fun t => t.kind == TKind.standard && t.bbox.isSome)

/-- Embeds `[t for t in tables if t.get('type') == 'detected']`. -/
def detected_tables (tables : List TableInfo) : List TableInfo :=
  tables.filter (fun t => t.kind == TKind.detected)

/-- Embeds `min(self._last_table_block_indices)` with `-1` for the empty list. -/
def min_table_idx (lastIdx : List Nat) : Int :=
  match lastIdx with
  | [] => -1
  | i :: rest => (rest.foldl (fun m j => min m j) i : Nat)

/-- The text parts of a text block as joined by the orderer. -/
def block_text_parts (lines : List PLine) : List String :=
  lines.filterMap (fun ln =>
    if ln.spans.isEmpty then none
    else
      let t := line_text ln
      if t = "" then none else some t)

/-- The block loop of `_get_ordered_content_blocks_optimized`; `bi` is the
enumeration index, `ii` the running image index. -/
def ordered_go (std det : List TableInfo) (lastIdx : List Nat) (minIdx : Int)
    (images : List String) : Nat → Nat → List PBlock → List CBlock
  | _, _, [] => []
  | bi, ii, PBlock.text bbox lines :: rest =>
    if std.any (fun t =>
        match t.bbox with
        | some tb => bbox_in_table bbox tb
        | none => false) then
      ordered_go std det lastIdx minIdx images (bi + 1) ii rest
    else if lastIdx.contains bi then
      if (bi : Int) = minIdx then
        match det with
        | d :: _ =>
          ⟨CType.table, CVal.lines d.content, bbox.y0, (bbox.y0, (bi : Int))⟩ ::
            ordered_go std det lastIdx minIdx images (bi + 1) ii rest
        | [] => ordered_go std det lastIdx minIdx images (bi + 1) ii rest
      else ordered_go std det lastIdx minIdx images (bi + 1) ii rest
    else
      match block_text_parts lines with
      | [] => ordered_go std det lastIdx minIdx images (bi + 1) ii rest
      | p :: ps =>
        ⟨CType.text, CVal.str (String.intercalate " " (p :: ps)), bbox.y0,
          (bbox.y0, (bi : Int))⟩ ::
          ordered_go std det lastIdx minIdx images (bi + 1) ii rest
  | bi, ii, PBlock.image bbox :: rest =>
    match images.get? ii with
    | some url =>
      ⟨CType.image, CVal.str ("![图片](" ++ url ++ ")"), bbox.y0,
        (bbox.y0, (bi : Int))⟩ ::
        ordered_go std det lastIdx minIdx images (bi + 1) (ii + 1) rest
    | none => ordered_go std det lastIdx minIdx images (bi + 1) ii rest

/-- Embeds `_get_ordered_content_blocks_optimized`: native tables first, then the
block loop, then a stable sort by `sort_key` (Python's `list.sort` is stable;
so is `insertionSort` for this total preorder). -/
def get_ordered_content_blocks (blocks : List PBlock) (tables : List TableInfo)
    (images : List String) (lastIdx : List Nat) : List CBlock :=
  let std := standard_tables tables
  let det := detected_tables tables
  let acc0 := std.map (fun t =>
    (⟨CType.table, CVal.lines t.content, t.y_pos, (t.y_pos, -1)⟩ : CBlock))
  List.insertionSort keyLe
    (acc0 ++ ordered_go std det lastIdx (min_table_idx lastIdx) images 0 0 blocks)

/-! ### `parse_document` and the `_parse_docx` body loop
The per-format readers call external libraries; they are abstracted as
environment-supplied outcomes (`ParseOutcome`).  Raised exceptions are the
`raised` constructor; `parse_document`'s `except` clause turns them into the
failure dictionary.  Only the result fields the claims mention are modelled
(`success`, `markdown`, `error`, `images`). -/

structure ParseRes where
  success : Bool
  markdown : String
  error : Option String
  images : List String
deriving DecidableEq

inductive ParseOutcome where
  | ok (r : ParseRes)
  | raised (msg : String)
deriving DecidableEq

/-- The failure dictionary built in `parse_document`'s `except` clause. -/
def failRes (msg : String) : ParseRes :=
  { success := false, markdown := "", error := some msg, images := [] }

/-- Propagate a format parser's outcome through the surrounding
`try`/`except` of `parse_document`. -/
def run_outcome : ParseOutcome → ParseRes
  | .ok r => r
  | .raised m => failRes m

/-- The abstract environment `parse_document` runs against: whether the file
exists, its suffix and name, the per-extension parser outcome, and the `.doc`
converter (`none` when disabled or missing, otherwise the conversion
result). -/
structure DocEnv where
  fileExists : Bool
  suffix : String
  fileName : String
  byFormat : String → ParseOutcome
  docConverter : Option (Except String String)

/-- The `ValueError` message for an unsupported extension. -/
def unsupported_message (ext : String) : String :=
  "Unsupported file format: " ++ ext ++ ". Supported formats: docx, doc, pdf, xlsx, xls, pptx"

/-- The `ValueError` message of the dead-end `.ppt` branch. -/
def ppt_message : String :=
  "The .ppt format is not supported. Please convert the file to .pptx format for cross-platform support."

/-- Embeds `parse_document`: existence check, `suffix.lower()` dispatch, and the
`except` clause mapping every raised error to the failure dictionary.  The
`.doc` branch converts first and then parses the produced `.docx` (the
`file_type`/`file_info` rewrites of that branch are outside the modelled
fields). -/
def parse_document (env : DocEnv) : ParseRes :=
  if !env.fileExists then failRes ("File does not exist: " ++ env.fileName)
  else
    let ext := pyLower env.suffix
    if ext = ".docx" then run_outcome (env.byFormat ".docx")
    else if ext = ".pdf" then run_outcome (env.byFormat ".pdf")
    else if ext = ".xlsx" then run_outcome (env.byFormat ".xlsx")
    else if ext = ".xls" then run_outcome (env.byFormat ".xls")
    else if ext = ".pptx" then run_outcome (env.byFormat ".pptx")
    else if ext = ".doc" then
      match env.docConverter with
      | none =>
        failRes "DOC conversion feature is not enabled or LibreOffice is not installed. Please install LibreOffice or convert the file to .docx format."
      | some (.error m) => failRes ("DOC conversion failed: " ++ m)
      | some (.ok _) => run_outcome (env.byFormat ".docx")
    else if ext = ".ppt" then failRes ppt_message
    else failRes (unsupported_message ext)

/-- A docx body element: a table, a paragraph (text, style, alignment and the
inline image URLs resolved for it), or any other element tag (skipped). -/
inductive BodyElem where
  | tbl
  | para (text style : String) (align : Alignment) (imageUrls : List String)
  | other
deriving DecidableEq

/-- Embeds `f"\n**Table {k}:**\n"`. -/
def table_title_line (k : Nat) : String := "\n**Table " ++ toString k ++ ":**\n"

/-- The visible placeholder `f"\n*[Table {k} parsing failed]*\n"`. -/
def table_failed_line (k : Nat) : String :=
  "\n*[Table " ++ toString k ++ " parsing failed]*\n"

/-- The element loop of `_parse_docx`.  `tables` carries each
`_convert_docx_table_to_markdown` call's outcome (rendered lines, or the
exception message it raised); `ti` is `table_index`.  A failing table appends
the placeholder line and processing continues with the next element. -/
def docx_body_go (tables : List (Except String (List String)))
    (allTexts : List String) (filterHF : Bool) :
    Nat → List BodyElem → List String
  | _, [] => []
  | ti, BodyElem.tbl :: rest =>
    (match tables.get? ti with
     | some (.ok md) =>
       (if md = [] then [] else table_title_line (ti + 1) :: md ++ [""]) ++
         docx_body_go tables allTexts filterHF (ti + 1) rest
     | some (.error _) =>
       table_failed_line (ti + 1) :: docx_body_go tables allTexts filterHF (ti + 1) rest
     | none => docx_body_go tables allTexts filterHF ti rest)
  | ti, BodyElem.para t s a urls :: rest =>
    (if filterHF && is_header_or_footer t allTexts then []
     else
       process_docx_paragraph t s a ++
         urls.flatMap (fun u => ["![Image](" ++ u ++ ")", ""])) ++
      docx_body_go tables allTexts filterHF ti rest
  | ti, BodyElem.other :: rest => docx_body_go tables allTexts filterHF ti rest

/-- The body traversal of `_parse_docx` from the start. -/
def docx_body (tables : List (Except String (List String)))
    (allTexts : List String) (filterHF : Bool) (elems : List BodyElem) : List String :=
  docx_body_go tables allTexts filterHF 0 elems

/-! ## Supporting lemmas -/

theorem string_eq_empty_iff_data (s : String) : s = "" ↔ s.data = [] := by
  constructor
  · intro h
    rw [h]
  · intro h
    cases s with
    | mk d =>
      simp only at h
      rw [h]

theorem string_ne_empty_iff_data (s : String) : s ≠ "" ↔ s.data ≠ [] :=
  not_congr (string_eq_empty_iff_data s)

theorem mem_replaceChar {a c : Char} {r l : List Char}
    (h : a ∈ replaceChar c r l) : a ∈ r ∨ a ∈ l := by
  simp only [replaceChar, List.mem_flatMap] at h
  obtain ⟨x, hx, hmem⟩ := h
  by_cases hxc : x = c
  · simp [hxc] at hmem
    exact Or.inl hmem
  · simp [hxc] at hmem
    exact Or.inr (hmem ▸ hx)

theorem self_not_mem_replaceChar {c : Char} {r l : List Char} (hc : c ∉ r) :
    c ∉ replaceChar c r l := by
  intro h
  simp only [replaceChar, List.mem_flatMap] at h
  obtain ⟨x, _, hmem⟩ := h
  by_cases hxc : x = c
  · simp [hxc] at hmem
    exact hc hmem
  · simp [hxc] at hmem
    exact hxc (hmem ▸ rfl)

theorem replaceChar_ne_nil {c : Char} {r l : List Char} (hr : r ≠ [])
    (hl : l ≠ []) : replaceChar c r l ≠ [] := by
  cases l with
  | nil => exact absurd rfl hl
  | cons x xs =>
    have hcons : replaceChar c r (x :: xs) =
        (if x = c then r else [x]) ++ replaceChar c r xs := List.flatMap_cons ..
    rw [hcons]
    intro h
    rcases List.append_eq_nil.mp h with ⟨h1, _⟩
    by_cases hxc : x = c
    · rw [if_pos hxc] at h1
      exact hr h1
    · rw [if_neg hxc] at h1
      simp at h1

theorem replaceChar_eq_nil_iff {c : Char} {r l : List Char} (hr : r ≠ []) :
    replaceChar c r l = [] ↔ l = [] := by
  constructor
  · intro h
    by_contra hl
    exact replaceChar_ne_nil hr hl h
  · intro h
    simp [h, replaceChar]

/-- Worker for the pipe-escaping property: `prev` records whether the
previous character was a backslash; a pipe is only legal right after one. -/
def escOKGo (prev : Bool) : List Char → Bool
  | [] => true
  | a :: rest =>
    if a = '|' then prev && escOKGo false rest else escOKGo (a = '\\') rest

/-- Every `|` in the list is immediately preceded by a `\`. -/
def escOK (l : List Char) : Bool := escOKGo false l

theorem escOKGo_replacePipe (l : List Char) :
    ∀ prev, escOKGo prev (replaceChar '|' ['\\', '|'] l) = true := by
  induction l with
  | nil => intro prev; rfl
  | cons x xs ih =>
    intro prev
    by_cases hx : x = '|'
    · simp [replaceChar, hx, escOKGo]
      have := ih false
      simpa [replaceChar] using this
    · simp only [replaceChar, List.flatMap_cons, if_neg hx]
      simp only [List.singleton_append, escOKGo, if_neg hx]
      have := ih (x = '\\')
      simpa [replaceChar] using this

theorem escOK_replacePipe (l : List Char) :
    escOK (replaceChar '|' ['\\', '|'] l) = true := escOKGo_replacePipe l false

theorem count_pipe_replaceNlBr (l : List Char) :
    (replaceChar '\n' "<br>".data l).count '|' = l.count '|' := by
  induction l with
  | nil => rfl
  | cons x xs ih =>
    have hcons : replaceChar '\n' "<br>".data (x :: xs) =
        (if x = '\n' then "<br>".data else [x]) ++ replaceChar '\n' "<br>".data xs :=
      List.flatMap_cons ..
    rw [hcons, List.count_append, ih]
    by_cases hx : x = '\n'
    · rw [if_pos hx]
      subst hx
      have hbr : ("<br>".data).count '|' = 0 := by decide
      simp [hbr, List.count_cons]
    · rw [if_neg hx]
      simp [List.count_cons]
      omega

theorem dropWhile_idem (p : Char → Bool) (l : List Char) :
    (l.dropWhile p).dropWhile p = l.dropWhile p := by
  induction l with
  | nil => rfl
  | cons a t ih =>
    by_cases h : p a <;> simp [List.dropWhile_cons, h, ih]

theorem head?_dropWhile {α : Type} {p : α → Bool} {l : List α} {a : α}
    (h : (l.dropWhile p).head? = some a) : p a = false := by
  induction l with
  | nil => simp at h
  | cons x xs ih =>
    by_cases hx : p x
    · simp [List.dropWhile_cons, hx] at h
      exact ih h
    · simp [List.dropWhile_cons, hx] at h
      simpa [h] using hx

theorem getLast?_dropWhile {α : Type} {p : α → Bool} {l : List α}
    (h : l.dropWhile p ≠ []) : (l.dropWhile p).getLast? = l.getLast? := by
  induction l with
  | nil => simp at h
  | cons x xs ih =>
    by_cases hx : p x
    · simp only [List.dropWhile_cons, if_pos hx] at h ⊢
      rw [ih h]
      have hxs : xs ≠ [] := by
        intro he
        exact h (by simp [he])
      cases xs with
      | nil => exact absurd rfl hxs
      | cons b t => exact (List.getLast?_cons_cons ..).symm
    · simp [List.dropWhile_cons, hx]

theorem stripC_head_not_ws {l : List Char} {a : Char}
    (h : (stripC l).head? = some a) : pyWs a = false := by
  unfold stripC at h
  rw [List.head?_reverse] at h
  have hne : (((l.dropWhile pyWs).reverse).dropWhile pyWs) ≠ [] := by
    intro he
    rw [he] at h
    simp at h
  rw [getLast?_dropWhile hne, List.getLast?_reverse] at h
  exact head?_dropWhile h

theorem stripC_getLast_not_ws {l : List Char} {a : Char}
    (h : (stripC l).getLast? = some a) : pyWs a = false := by
  unfold stripC at h
  rw [List.getLast?_reverse] at h
  exact head?_dropWhile h

theorem stripC_idem (l : List Char) : stripC (stripC l) = stripC l := by
  have hA : (stripC l).dropWhile pyWs = stripC l := by
    cases hh : stripC l with
    | nil => simp
    | cons a t =>
      have ha : pyWs a = false := stripC_head_not_ws (by rw [hh]; rfl)
      simp [List.dropWhile_cons, ha]
  have hB : (stripC l).reverse.dropWhile pyWs = (stripC l).reverse := by
    cases hh : (stripC l).reverse with
    | nil => simp
    | cons a t =>
      have ha : pyWs a = false := by
        apply stripC_getLast_not_ws (l := l)
        rw [← List.head?_reverse, hh]
        rfl
      simp [List.dropWhile_cons, ha]
  show ((((stripC l).dropWhile pyWs).reverse).dropWhile pyWs).reverse = stripC l
  rw [hA, hB, List.reverse_reverse]

theorem pyStrip_idem (s : String) : pyStrip (pyStrip s) = pyStrip s := by
  simp [pyStrip, stripC_idem]

theorem stripC_eq_nil_iff (l : List Char) : stripC l = [] ↔ blankC l = true := by
  unfold stripC blankC
  rw [List.reverse_eq_nil_iff, List.dropWhile_eq_nil_iff, List.all_eq_true]
  constructor
  · intro h a ha
    rw [← List.takeWhile_append_dropWhile (p := pyWs) (l := l), List.mem_append] at ha
    rcases ha with ha | ha
    · exact List.mem_takeWhile_imp ha
    · exact h a (List.mem_reverse.mpr ha)
  · intro h a ha
    have hs : (List.dropWhile pyWs l).Sublist l := List.dropWhile_sublist _
    exact h a (hs.subset (List.mem_reverse.mp ha))

theorem pdf_filtered_rows_mem {td : List (List (Option String))}
    {r : List String} (h : r ∈ pdf_filtered_rows td) : ∃ c ∈ r, c ≠ "" := by
  unfold pdf_filtered_rows at h
  have hp := (List.mem_filter.mp h).2
  rw [List.any_eq_true] at hp
  obtain ⟨c, hc, hcne⟩ := hp
  exact ⟨c, hc, by simpa using hcne⟩

theorem pdf_normalized_mem {td : List (List (Option String))}
    {r : List String} (h : r ∈ pdf_normalized td) : ∃ c ∈ r, c ≠ "" := by
  unfold pdf_normalized at h
  rw [List.mem_map] at h
  obtain ⟨r0, hr0, hpad⟩ := h
  obtain ⟨c, hc, hcne⟩ := pdf_filtered_rows_mem hr0
  exact ⟨c, by rw [← hpad]; exact List.mem_append_left _ hc, hcne⟩

theorem pdf_header_data_snd_subset {normalized : List (List String)}
    {maxCols : Nat} {r : List String}
    (h : r ∈ (pdf_header_data normalized maxCols).2) : r ∈ normalized := by
  cases normalized with
  | nil => simp [pdf_header_data] at h
  | cons h0 rest =>
    simp only [pdf_header_data] at h
    split at h
    · exact h
    · exact List.mem_cons_of_mem _ h

theorem pdf_filtered_rows_nil {td : List (List (Option String))}
    (h : ∀ r ∈ td, ∀ c ∈ r, clean_pdf_cell c = "") : pdf_filtered_rows td = [] := by
  unfold pdf_filtered_rows
  rw [List.filter_eq_nil_iff]
  intro r hr
  unfold pdf_cleaned_rows at hr
  rw [List.mem_map] at hr
  obtain ⟨r0, hr0, hmap⟩ := hr
  simp only [List.any_eq_true, not_exists, not_and]
  intro c hc
  rw [← hmap, List.mem_map] at hc
  obtain ⟨c0, hc0, hclean⟩ := hc
  rw [← hclean, h r0 hr0 c0 hc0]
  simp

/-- C10.  Every row that survives cleaning and padding in
`_convert_pdf_table_to_markdown` has a non-empty cell, the data rows the
renderer emits are among those rows, and a matrix whose every cell cleans to
the empty string produces no table at all. -/
theorem claim_C10_empty_rows_dropped (td : List (List (Option String)))
    (pageNum tableIdx : Nat) :
    (∀ r ∈ (pdf_header_data (pdf_normalized td) (pdf_max_cols td)).2,
        ∃ c ∈ r, c ≠ "") ∧
    ((∀ r ∈ td, ∀ c ∈ r, clean_pdf_cell c = "") →
        convert_pdf_table_to_markdown td pageNum tableIdx = []) := by
  constructor
  · intro r hr
    exact pdf_normalized_mem (pdf_header_data_snd_subset hr)
  · intro h
    unfold convert_pdf_table_to_markdown
    by_cases htd : td = []
    · rw [if_pos htd]
    · rw [if_neg htd, if_pos (pdf_filtered_rows_nil h)]

/-- Witness for the hypothesis of C10: a 2×2 matrix of `None` and blank
cells renders to nothing. -/
theorem claim_C10_witness :
    convert_pdf_table_to_markdown [[some " ", none], [some "", none]] 0 0 = [] ∧
    (∃ c ∈ (["b"] : List String), c ≠ "") :=
  ⟨(claim_C10_empty_rows_dropped [[some " ", none], [some "", none]] 0 0).2
      (by decide),
   (claim_C10_empty_rows_dropped [[some "a"], [some "b"]] 0 0).1 ["b"] (by decide)⟩

theorem replaceEmptyHeaders_enumFrom (hs : List String)
    (h : ∀ x ∈ hs, x ≠ "") :
    ∀ n, (hs.enumFrom n).map (fun p => if p.2 = "" then colLabel p.1 else p.2) = hs := by
  induction hs with
  | nil => intro n; rfl
  | cons x xs ih =>
    intro n
    have hx : x ≠ "" := h x (List.mem_cons_self ..)
    simp only [List.enumFrom, List.map_cons, if_neg hx]
    rw [ih (fun y hy => h y (List.mem_cons_of_mem _ hy))]

theorem replaceEmptyHeaders_eq_self {hs : List String}
    (h : ∀ x ∈ hs, x ≠ "") : replaceEmptyHeaders hs = hs :=
  replaceEmptyHeaders_enumFrom hs h 0

theorem colLabel_ne_empty (i : Nat) : colLabel i ≠ "" := by
  rw [string_ne_empty_iff_data]
  unfold colLabel
  rw [String.data_append]
  simp

theorem replaceEmptyHeaders_length (hs : List String) :
    (replaceEmptyHeaders hs).length = hs.length := by
  unfold replaceEmptyHeaders
  rw [List.length_map]
  exact List.enum_length

/-- C4 (amended).  Header inference of `_convert_pdf_table_to_markdown`: when
every cell of the cleaned, padded row 0 is empty or a numeric string of
length at most 3, synthetic labels `列{i}` are used and row 0 is rendered as
data; otherwise row 0 becomes the header (its empty cells replaced by
synthetic labels) and only the remaining rows are data.  The spreadsheet
renderer `_convert_list_to_markdown_table` does not follow this rule — see
the counterexample. -/
theorem claim_C4_pdf_header_inference (td : List (List (Option String)))
    (pageNum tableIdx : Nat) (h0 : List String) (rest : List (List String))
    (hn : pdf_normalized td = h0 :: rest) :
    (h0.all emptyOrShortNum = true →
      convert_pdf_table_to_markdown td pageNum tableIdx =
        pdf_table_title pageNum tableIdx ::
          mkRowLine ((List.range (pdf_max_cols td)).map colLabel) ::
          mkSepLine (pdf_max_cols td) :: (h0 :: rest).map pdf_data_line) ∧
    (h0.all emptyOrShortNum = false →
      convert_pdf_table_to_markdown td pageNum tableIdx =
        pdf_table_title pageNum tableIdx ::
          mkRowLine (replaceEmptyHeaders h0) ::
          mkSepLine h0.length :: rest.map pdf_data_line) := by
  have hfil : pdf_filtered_rows td ≠ [] := by
    intro hf
    rw [pdf_normalized, hf] at hn
    simp at hn
  have htd : td ≠ [] := by
    intro he
    apply hfil
    rw [he]
    rfl
  have hsynth : ∀ x ∈ (List.range (pdf_max_cols td)).map colLabel, x ≠ "" := by
    intro x hx
    rw [List.mem_map] at hx
    obtain ⟨i, _, hi⟩ := hx
    exact hi ▸ colLabel_ne_empty i
  constructor
  · intro hall
    unfold convert_pdf_table_to_markdown
    rw [if_neg htd, if_neg hfil]
    simp only [hn, pdf_header_data, if_pos hall]
    rw [replaceEmptyHeaders_eq_self hsynth]
    simp
  · intro hall
    unfold convert_pdf_table_to_markdown
    rw [if_neg htd, if_neg hfil]
    simp only [hn, pdf_header_data, hall]
    rw [replaceEmptyHeaders_length]
    simp

/-- Witness for C4: a matrix whose row 0 is `["7", ""]` (all short-numeric or
empty) gets synthetic headers with row 0 kept as data, and one whose row 0 is
`["name", ""]` uses row 0 as header with the empty cell replaced. -/
theorem claim_C4_witness :
    convert_pdf_table_to_markdown [[some "7", none], [some "a", some "b"]] 0 0 =
      pdf_table_title 0 0 :: mkRowLine [colLabel 0, colLabel 1] ::
        mkSepLine 2 :: [pdf_data_line ["7", ""], pdf_data_line ["a", "b"]] ∧
    convert_pdf_table_to_markdown [[some "name", none], [some "a", some "b"]] 0 0 =
      pdf_table_title 0 0 :: mkRowLine ["name", colLabel 1] ::
        mkSepLine 2 :: [pdf_data_line ["a", "b"]] := by
  constructor
  · have h := (claim_C4_pdf_header_inference [[some "7", none], [some "a", some "b"]]
      0 0 ["7", ""] [["a", "b"]] (by decide)).1 (by decide)
    rw [h]
    decide
  · have h := (claim_C4_pdf_header_inference [[some "name", none], [some "a", some "b"]]
      0 0 ["name", ""] [["a", "b"]] (by decide)).2 (by decide)
    rw [h]
    decide

/-- C4 counterexample.  `_convert_list_to_markdown_table` renders the matrix
`[["1"], ["2"]]` with the numeric cell `"1"` as header, although the claim
requires row 0 made of numeric strings of length ≤ 3 to become a data row
under a synthetic `列1` header. -/
theorem claim_C4_counterexample :
    convert_list_to_markdown_table [["1"], ["2"]] = ["| 1 |", "| --- |", "| 2 |"] ∧
    emptyOrShortNum "1" = true ∧
    ("| 1 |" : String) ≠ mkRowLine [colLabel 0] := by
  refine ⟨by decide, by decide, by decide⟩

/-- C5 (amended).  Escaping per renderer: the PDF cell cleaner removes every
newline (as a space, not a line-break marker) and escapes every pipe; the
spreadsheet cell cleaner replaces newlines with `<br>` and escapes every
pipe; the docx data-cell cleaner replaces newlines with `<br>` but passes
pipes through unescaped. -/
theorem claim_C5_escaping (s : String) :
    ((clean_pdf_cell (some s)).data.contains '\n' = false ∧
      escOK (clean_pdf_cell (some s)).data = true) ∧
    ((clean_list_cell s).data.contains '\n' = false ∧
      escOK (clean_list_cell s).data = true) ∧
    ((docx_clean_data_cell s).data.contains '\n' = false ∧
      (docx_clean_data_cell s).data.count '|' = (stripC s.data).count '|') := by
  refine ⟨⟨?_, ?_⟩, ⟨?_, ?_⟩, ?_, ?_⟩
  · have h : '\n' ∉ (clean_pdf_cell (some s)).data := by
      intro h
      rcases mem_replaceChar h with h2 | h2
      · simp at h2
      · exact self_not_mem_replaceChar (by decide) h2
    simpa using h
  · exact escOK_replacePipe _
  · have h : '\n' ∉ (clean_list_cell s).data := by
      intro h
      rcases mem_replaceChar h with h2 | h2
      · simp at h2
      · exact self_not_mem_replaceChar (by decide) h2
    simpa using h
  · exact escOK_replacePipe _
  · have hnm : '\n' ∉ (docx_clean_data_cell s).data := by
      by_cases h : (⟨replaceChar '\n' "<br>".data (stripC s.data)⟩ : String) = ""
      · simp only [docx_clean_data_cell, if_pos h]
        decide
      · simp only [docx_clean_data_cell, if_neg h]
        intro hm
        exact self_not_mem_replaceChar (by decide) hm
    simpa using hnm
  · by_cases h : (⟨replaceChar '\n' "<br>".data (stripC s.data)⟩ : String) = ""
    · simp only [docx_clean_data_cell, if_pos h]
      have hnil : replaceChar '\n' "<br>".data (stripC s.data) = [] :=
        congrArg String.data h
      rw [(replaceChar_eq_nil_iff (by decide)).mp hnil]
      decide
    · simp only [docx_clean_data_cell, if_neg h]
      exact count_pipe_replaceNlBr _

/-- C5 counterexample.  The PDF renderer turns the in-cell newline of
`"x\ny"` into a plain space (no line-break marker appears), and the docx
renderer leaves the pipe of header cell `"p|q"` unescaped, so a rendered line
contains a bare in-cell pipe. -/
theorem claim_C5_counterexample :
    clean_pdf_cell (some "x\ny") = "x y" ∧
    containsSub "<br>".data "x y".data = false ∧
    convert_docx_table_to_markdown [["p|q"], ["r"]] =
      ["| p|q |", "| --- |", "| r |"] ∧
    escOK (docx_header_cell 0 "p|q").data = false := by
  refine ⟨by decide, by decide, by decide, by decide⟩

/-- C6 (amended).  Rule 3 of `_is_header_or_footer` only fires for texts of
length < 100: a short paragraph occurring more than 3 times is dropped, and
one occurring exactly 3 times is kept provided none of the other noise rules
(pure page number, page-number pattern, copyright/confidentiality keyword)
applies to it. -/
theorem claim_C6_repeat_filter (text : String) (allTexts : List String) :
    (4 < allTexts.length → pyStrip text ≠ "" →
      (pyStrip text).length < 100 →
      3 < allTexts.count (pyStrip text) →
      is_header_or_footer text allTexts = true) ∧
    (allTexts.count (pyStrip text) = 3 →
      (isDigitsB (pyStrip text).data && decide ((pyStrip text).length ≤ 4)) = false →
      page_pattern_match (pyStrip text).data = false →
      (footer_keywords.any (fun k => containsSub k.data (pyLowerC (pyStrip text).data))
          && decide ((pyStrip text).length < 150)) = false →
      is_header_or_footer text allTexts = false) := by
  constructor
  · intro _ h1 hlen hc
    simp only [is_header_or_footer]
    rw [if_neg h1, decide_eq_true hlen, decide_eq_true hc]
    simp
  · intro hcount hdig hpat hkey
    by_cases ht : pyStrip text = ""
    · simp [is_header_or_footer, ht]
    · have hcf : decide (allTexts.count (pyStrip text) > 3) = false := by
        rw [hcount]
        decide
      simp only [is_header_or_footer]
      rw [if_neg ht, hdig, hpat, hkey, hcf]
      simp

/-- A 100-character paragraph, used to exhibit the length bound of rule 3. -/
def hundredAs : String := ⟨List.replicate 100 'a'⟩

/-- C6 counterexample.  In a document of 5 non-empty paragraphs, a paragraph
of length 100 whose text occurs 4 times is NOT classified as noise (rule 3
requires length < 100), contradicting the claim that any paragraph occurring
at least 4 times is dropped. -/
theorem claim_C6_counterexample :
    (List.replicate 4 hundredAs ++ ["x"]).length = 5 ∧
    (List.replicate 4 hundredAs ++ ["x"]).count hundredAs = 4 ∧
    is_header_or_footer hundredAs (List.replicate 4 hundredAs ++ ["x"]) = false := by
  refine ⟨by decide, by decide, by decide⟩

/-- Witness for C6: `"hello"` repeated 4 times among 5 paragraphs is
filtered; `"world"` occurring exactly 3 times is kept. -/
theorem claim_C6_witness :
    is_header_or_footer "hello" ["hello", "hello", "hello", "hello", "x"] = true ∧
    is_header_or_footer "world" ["world", "world", "world", "a", "b"] = false :=
  ⟨(claim_C6_repeat_filter "hello" ["hello", "hello", "hello", "hello", "x"]).1
      (by decide) (by decide) (by decide) (by decide),
   (claim_C6_repeat_filter "world" ["world", "world", "world", "a", "b"]).2
      (by decide) (by decide) (by decide) (by decide)⟩

theorem isPrefixOf_length_le {p l : List Char} (h : p.isPrefixOf l = true) :
    p.length ≤ l.length := by
  induction p generalizing l with
  | nil => simp
  | cons a as ih =>
    cases l with
    | nil => simp [List.isPrefixOf] at h
    | cons b bs =>
      simp only [List.isPrefixOf, Bool.and_eq_true] at h
      exact Nat.succ_le_succ (ih h.2)

theorem heading_not_prefix_of_head {sn : String} {c : Char}
    (h : (pyLowerC sn.data).head? = some c) (hc : c ≠ 'h') :
    startsWithC "Heading".data sn.data = false := by
  cases hd : sn.data with
  | nil =>
    rw [hd] at h
    simp [pyLowerC] at h
  | cons b bs =>
    rw [hd] at h
    simp only [pyLowerC, List.map_cons, List.head?_cons, Option.some.injEq] at h
    have hH : "Heading".data = 'H' :: "eading".data := rfl
    rw [hd] at *
    unfold startsWithC
    rw [hH]
    simp only [List.isPrefixOf, Bool.and_eq_false_iff]
    cases hq : ('H' == b)
    · exact Or.inl rfl
    · exfalso
      apply hc
      rw [← h, ← eq_of_beq hq]
      decide

/-- C7 (amended).  A paragraph whose style name lowercases to `title` OR to
`subtitle` is emitted as a level-1 heading (`# ...`): the code renders both
with a single `#`, so subtitle does not get level 2. -/
theorem claim_C7_title_level (text styleName : String) (align : Alignment)
    (ht : pyStrip text ≠ "")
    (hs : pyLower styleName = "title" ∨ pyLower styleName = "subtitle") :
    process_docx_paragraph text styleName align = ["# " ++ pyStrip text, ""] := by
  have hnp : startsWithC "Heading".data styleName.data = false := by
    rcases hs with h | h
    · have hdata : pyLowerC styleName.data = "title".data := congrArg String.data h
      apply heading_not_prefix_of_head (c := 't')
      · rw [hdata]
        rfl
      · decide
    · have hdata : pyLowerC styleName.data = "subtitle".data := congrArg String.data h
      apply heading_not_prefix_of_head (c := 's')
      · rw [hdata]
        rfl
      · decide
  rcases hs with h | h <;> simp [process_docx_paragraph, ht, hnp, h]

/-- C7 counterexample.  Style `Subtitle` yields a level-1 heading `# Hello`,
not the level-2 heading `## Hello` the claim requires for subtitle styles. -/
theorem claim_C7_counterexample :
    process_docx_paragraph "Hello" "Subtitle" Alignment.other = ["# Hello", ""] ∧
    (["# Hello", ""] : List String) ≠ ["## Hello", ""] := ⟨by decide, by decide⟩

/-- Witness for C7 at a concrete title-style paragraph. -/
theorem claim_C7_witness :
    process_docx_paragraph "T" "TITLE" Alignment.other = ["# T", ""] :=
  claim_C7_title_level "T" "TITLE" Alignment.other (by decide) (Or.inl (by decide))

/-- Spec-side description of the blank-line collapse: every maximal run of
newline characters of length 3 or more is replaced by exactly two newlines
(shorter runs are kept), processed run by run.  To be compared with the
character-at-a-time `collapseNl` from the source's regex substitution. -/
def specCollapse : List Char → List Char
  | [] => []
  | c :: rest =>
    if c = '\n' then
      (if (rest.takeWhile (fun a => a = '\n')).length + 1 ≥ 3 then ['\n', '\n']
       else List.replicate ((rest.takeWhile (fun a => a = '\n')).length + 1) '\n') ++
        specCollapse (rest.dropWhile (fun a => a = '\n'))
    else c :: specCollapse rest
termination_by l => l.length
decreasing_by
  all_goals simp only [List.length_cons]
  · have := (List.dropWhile_sublist (fun a : Char => a = '\n') (l := rest)).length_le
    omega
  · omega

theorem collapseGo_nil (m : Nat) :
    collapseGo m [] = List.replicate (if m ≥ 3 then 2 else m) '\n' := rfl

theorem collapseGo_cons_nl (m : Nat) (rest : List Char) :
    collapseGo m ('\n' :: rest) = collapseGo (m + 1) rest := by
  simp [collapseGo]

theorem collapseGo_cons_ne (m : Nat) {c : Char} (rest : List Char) (h : c ≠ '\n') :
    collapseGo m (c :: rest) =
      List.replicate (if m ≥ 3 then 2 else m) '\n' ++ c :: collapseGo 0 rest := by
  simp [collapseGo, h]

theorem collapseGo_replicate (k : Nat) (m : Nat) (l : List Char) :
    collapseGo m (List.replicate k '\n' ++ l) = collapseGo (m + k) l := by
  induction k generalizing m with
  | zero => simp
  | succ k ih =>
    rw [List.replicate_succ, List.cons_append, collapseGo_cons_nl, ih]
    congr 1
    omega

theorem collapseGo_flush (m : Nat) (l : List Char)
    (h : ∀ d ∈ l.head?, d ≠ '\n') :
    collapseGo m l = List.replicate (if m ≥ 3 then 2 else m) '\n' ++ collapseGo 0 l := by
  cases l with
  | nil => simp [collapseGo_nil]
  | cons d ds =>
    have hd : d ≠ '\n' := h d (by simp)
    rw [collapseGo_cons_ne m ds hd, collapseGo_cons_ne 0 ds hd]
    simp

theorem takeWhile_nl_eq_replicate (l : List Char) :
    l.takeWhile (fun a => a = '\n') =
      List.replicate ((l.takeWhile (fun a => a = '\n')).length) '\n' := by
  rw [List.eq_replicate_iff]
  refine ⟨rfl, ?_⟩
  intro b hb
  have := List.mem_takeWhile_imp hb
  simpa using this

theorem collapseNl_eq_specCollapse (l : List Char) : collapseNl l = specCollapse l := by
  unfold collapseNl
  induction l using specCollapse.induct with
  | case1 =>
    rw [collapseGo_nil]
    simp [specCollapse]
  | case2 rest ih =>
    rw [collapseGo_cons_nl]
    have hsplit : rest = List.replicate ((rest.takeWhile (fun a => a = '\n')).length) '\n'
        ++ rest.dropWhile (fun a => a = '\n') := by
      conv_lhs => rw [← List.takeWhile_append_dropWhile
        (p := fun a => a = '\n') (l := rest)]
      rw [← takeWhile_nl_eq_replicate]
    conv_lhs => rw [hsplit]
    rw [collapseGo_replicate]
    rw [collapseGo_flush _ _ (fun d hd => by
      have := head?_dropWhile (p := fun a => a = '\n') (Option.mem_def.mp hd)
      simpa using this)]
    rw [ih]
    conv_rhs => rw [specCollapse]
    rw [if_pos rfl]
    congr 1
    have hk : 0 + 1 + (rest.takeWhile (fun a => a = '\n')).length =
        (rest.takeWhile (fun a => a = '\n')).length + 1 := by omega
    rw [hk]
    by_cases h3 : (rest.takeWhile (fun a => a = '\n')).length + 1 ≥ 3
    · rw [if_pos h3, if_pos h3]
      rfl
    · rw [if_neg h3, if_neg h3]
  | case3 c rest hc ih =>
    rw [collapseGo_cons_ne 0 rest hc]
    conv_rhs => rw [specCollapse]
    rw [if_neg hc, ih]
    simp

theorem clean_markdown_lines_head {lines : List String} {h : List Char}
    (hh : (clean_markdown_lines lines).head? = some h) : blankC h = false := by
  simp only [clean_markdown_lines] at hh
  rw [List.head?_reverse] at hh
  have hne : ((((splitNl (collapseNl (joinNl (lines.map String.data)))).map
      rstripC).dropWhile blankC).reverse.dropWhile blankC) ≠ [] := by
    intro he
    rw [he] at hh
    simp at hh
  rw [getLast?_dropWhile hne, List.getLast?_reverse] at hh
  exact head?_dropWhile hh

theorem clean_markdown_lines_last {lines : List String} {h : List Char}
    (hh : (clean_markdown_lines lines).getLast? = some h) : blankC h = false := by
  simp only [clean_markdown_lines] at hh
  rw [List.getLast?_reverse] at hh
  exact head?_dropWhile hh

theorem joinNl_cons (h : List Char) (t : List (List Char)) :
    ∃ X, joinNl (h :: t) = h ++ X := by
  cases t with
  | nil => exact ⟨[], by simp [joinNl]⟩
  | cons y ys =>
    exact ⟨'\n' :: joinNl (y :: ys), by simp [joinNl, List.intersperse]⟩

theorem docx_result_eq (lines : List String) :
    docx_result_markdown lines =
      if clean_markdown lines = "" then empty_docx_placeholder
      else clean_markdown lines := by
  unfold docx_result_markdown
  by_cases hr : clean_markdown lines = ""
  · rw [if_pos hr, if_pos (by rw [hr]; rfl)]
  · rw [if_neg hr, if_neg ?hne]
    case hne =>
      intro hps
      apply hr
      have hdata : blankC (clean_markdown lines).data = true := by
        rw [← stripC_eq_nil_iff]
        exact congrArg String.data hps
      cases hf : clean_markdown_lines lines with
      | nil =>
        apply (string_eq_empty_iff_data _).mpr
        show joinNl (clean_markdown_lines lines) = []
        rw [hf]
        rfl
      | cons h t =>
        exfalso
        have hhead : blankC h = false := clean_markdown_lines_head (by rw [hf]; rfl)
        obtain ⟨X, hX⟩ := joinNl_cons h t
        have hall : blankC h = true := by
          have hjoin : (clean_markdown lines).data = joinNl (h :: t) := by
            show joinNl (clean_markdown_lines lines) = joinNl (h :: t)
            rw [hf]
          rw [hjoin, hX] at hdata
          unfold blankC at hdata ⊢
          rw [List.all_append, Bool.and_eq_true] at hdata
          exact hdata.1
        rw [hhead] at hall
        exact Bool.false_ne_true hall

/-- C8 (amended).  The assembler's collapse step rewrites every maximal run
of 3 or more newline characters to exactly 2 (so 2 or more consecutive blank
lines become a single one — not "3+ blank lines to 2"); the final line list
never starts or ends with a blank (all-whitespace) line; and the document
level substitutes the fixed placeholder exactly when the cleaned result is
empty. -/
theorem claim_C8_assembler :
    (∀ cs : List Char, collapseNl cs = specCollapse cs) ∧
    (∀ (lines : List String) (h : List Char),
        (clean_markdown_lines lines).head? = some h → blankC h = false) ∧
    (∀ (lines : List String) (h : List Char),
        (clean_markdown_lines lines).getLast? = some h → blankC h = false) ∧
    (∀ lines : List String, docx_result_markdown lines =
        if clean_markdown lines = "" then empty_docx_placeholder
        else clean_markdown lines) :=
  ⟨collapseNl_eq_specCollapse, fun _ _ => clean_markdown_lines_head,
   fun _ _ => clean_markdown_lines_last, docx_result_eq⟩

/-- Witness for C8 at a concrete line list with blank edges. -/
theorem claim_C8_witness :
    blankC ['a'] = false ∧ blankC ['b'] = false :=
  ⟨claim_C8_assembler.2.1 ["", "a ", "b", ""] ['a'] (by decide),
   claim_C8_assembler.2.2.1 ["", "a ", "b", ""] ['b'] (by decide)⟩

/-- C8 counterexample.  A run of 3 blank lines between `a` and `b` collapses
to a single blank line (`"a\n\nb"`), not to the two blank lines
(`"a\n\n\nb"`) the claim describes. -/
theorem claim_C8_counterexample :
    clean_markdown ["a", "", "", "", "b"] = "a\n\nb" ∧
    ("a\n\nb" : String) ≠ "a\n\n\nb" := ⟨by decide, by decide⟩

theorem page_text_lines_text {blocks : List PBlock} {tl : TextLine}
    (h : tl ∈ page_text_lines blocks) :
    tl.text ≠ "" ∧ pyStrip tl.text = tl.text := by
  unfold page_text_lines at h
  rw [List.mem_flatMap] at h
  obtain ⟨p, _, hmem⟩ := h
  cases hpb : p.2 with
  | text bbox lines =>
    rw [hpb] at hmem
    rw [List.mem_filterMap] at hmem
    obtain ⟨ln, _, hsome⟩ := hmem
    by_cases hsp : ln.spans.isEmpty
    · rw [if_pos hsp] at hsome
      exact absurd hsome (by simp)
    · rw [if_neg hsp] at hsome
      by_cases hte : line_text ln = ""
      · simp only [hte, if_pos] at hsome
        exact absurd hsome (by simp)
      · simp only [if_neg hte, Option.some.injEq] at hsome
        have htl : tl.text = line_text ln := by rw [← hsome]
        refine ⟨by rw [htl]; exact hte, ?_⟩
        rw [htl]
        unfold line_text
        exact pyStrip_idem _
  | image b =>
    rw [hpb] at hmem
    simp at hmem

theorem groupRowsGo_mem :
    ∀ (input : List TextLine) (cur : List TextLine) (lastY : Int)
      {r : List TextLine} {x : TextLine},
      r ∈ groupRowsGo cur lastY input → x ∈ r → x ∈ cur ∨ x ∈ input := by
  intro input
  induction input with
  | nil =>
    intro cur lastY r x hr hx
    simp only [groupRowsGo, List.mem_singleton] at hr
    subst hr
    exact Or.inl ((List.perm_insertionSort _ cur).subset hx)
  | cons b rest ih =>
    intro cur lastY r x hr hx
    simp only [groupRowsGo] at hr
    split at hr
    · rcases ih _ _ hr hx with h | h
      · rw [List.mem_append] at h
        rcases h with h | h
        · exact Or.inl h
        · simp only [List.mem_singleton] at h
          exact Or.inr (by simp [h])
      · exact Or.inr (List.mem_cons_of_mem _ h)
    · rcases List.mem_cons.mp hr with h | h
      · subst h
        exact Or.inl ((List.perm_insertionSort _ cur).subset hx)
      · rcases ih _ _ h hx with h2 | h2
        · simp only [List.mem_singleton] at h2
          exact Or.inr (by simp [h2])
        · exact Or.inr (List.mem_cons_of_mem _ h2)

theorem cluster_rows_mem {l : List TextLine} {r : List TextLine} {x : TextLine}
    (hr : r ∈ cluster_rows l) (hx : x ∈ r) : x ∈ l := by
  cases l with
  | nil => simp [cluster_rows] at hr
  | cons b rest =>
    rcases groupRowsGo_mem rest [b] b.y0 hr hx with h | h
    · simp only [List.mem_singleton] at h
      simp [h]
    · exact List.mem_cons_of_mem _ h

theorem detect_rows_mem {blocks : List PBlock} {r : List TextLine} {x : TextLine}
    (hr : r ∈ detect_rows blocks) (hx : x ∈ r) : x ∈ page_text_lines blocks := by
  unfold detect_rows at hr
  exact (List.perm_insertionSort _ _).subset (cluster_rows_mem hr hx)

theorem clean_pdf_cell_of_stripped {c : String} (hne : c ≠ "")
    (hst : pyStrip c = c) : clean_pdf_cell (some c) ≠ "" := by
  have hform : clean_pdf_cell (some c) =
      ⟨replaceChar '|' ['\\', '|'] (replaceChar '\n' [' '] (stripC c.data))⟩ := rfl
  rw [hform, string_ne_empty_iff_data]
  have hdata : stripC c.data = c.data := congrArg String.data hst
  rw [hdata]
  apply replaceChar_ne_nil (by decide)
  apply replaceChar_ne_nil (by decide)
  exact (string_ne_empty_iff_data c).mp hne

theorem detect_table_data_cells {blocks : List PBlock} {row : List String}
    (hrow : row ∈ detect_table_data blocks) :
    row.length = detect_mode blocks ∧ ∀ c ∈ row, c ≠ "" ∧ pyStrip c = c := by
  unfold detect_table_data at hrow
  rw [List.mem_map] at hrow
  obtain ⟨r, hr, hmap⟩ := hrow
  have hlen : r.length = detect_mode blocks := by
    have := (List.mem_filter.mp hr).2
    simpa using this
  constructor
  · rw [← hmap, List.length_map, hlen]
  · intro c hc
    rw [← hmap, List.mem_map] at hc
    obtain ⟨tl, htl, hct⟩ := hc
    have hmem : tl ∈ page_text_lines blocks :=
      detect_rows_mem (List.mem_filter.mp hr).1 htl
    have := page_text_lines_text hmem
    exact ⟨hct ▸ this.1, hct ▸ this.2⟩

/-- The y=0/y=10/y=20 page of Scenario A: spans A,B / C,D / E. -/
def scenarioA : List PBlock :=
  [PBlock.text ⟨0, 0, 10, 5⟩ [⟨⟨0, 0, 10, 5⟩, [⟨"A"⟩]⟩],
   PBlock.text ⟨50, 0, 60, 5⟩ [⟨⟨50, 0, 60, 5⟩, [⟨"B"⟩]⟩],
   PBlock.text ⟨0, 10, 10, 15⟩ [⟨⟨0, 10, 10, 15⟩, [⟨"C"⟩]⟩],
   PBlock.text ⟨50, 10, 60, 15⟩ [⟨⟨50, 10, 60, 15⟩, [⟨"D"⟩]⟩],
   PBlock.text ⟨0, 20, 10, 25⟩ [⟨⟨0, 20, 10, 25⟩, [⟨"E"⟩]⟩]]

/-- C3.  Scenario A: the detector clusters the five spans into rows
`[A,B]`, `[C,D]`, `[E]`, the modal column count is 2, the kept cell matrix is
exactly `[[A,B],[C,D]]` (row `[E]` dropped), and a table is emitted.  In
general, once the `minLines`/`minRows` guards pass, a table is emitted iff
the modal column count exceeds 1 and at least 60% of the clustered rows have
exactly that column count (`5 * count ≥ 3 * rows`). -/
theorem claim_C3_text_table_detection :
    (detect_mode scenarioA = 2 ∧
     detect_table_data scenarioA = [["A", "B"], ["C", "D"]] ∧
     (detect_tables_from_text scenarioA 0).1 ≠ []) ∧
    (∀ (blocks : List PBlock) (pageNum : Nat),
      3 ≤ (page_text_lines blocks).length →
      2 ≤ (detect_rows blocks).length →
      ((detect_tables_from_text blocks pageNum).1 ≠ [] ↔
        (1 < detect_mode blocks ∧
         3 * (detect_rows blocks).length ≤
           5 * (((detect_rows blocks).map List.length).count (detect_mode blocks))))) := by
  constructor
  · exact ⟨by decide, by decide, by decide⟩
  · intro blocks pageNum h3 h2
    simp only [detect_tables_from_text]
    rw [if_neg (by omega), if_neg (by omega)]
    by_cases hacc : detect_accept (detect_rows blocks) = true
    · rw [if_pos hacc]
      have hconds : 1 < detect_mode blocks ∧
          3 * (detect_rows blocks).length ≤
            5 * (((detect_rows blocks).map List.length).count (detect_mode blocks)) := by
        unfold detect_accept at hacc
        simp only [Bool.and_eq_true, decide_eq_true_eq] at hacc
        exact ⟨hacc.2, hacc.1⟩
      have htd : detect_table_data blocks ≠ [] := by
        have hcnt : 0 <
            ((detect_rows blocks).map List.length).count (detect_mode blocks) := by
          omega
        have hmem := List.count_pos_iff.mp hcnt
        rw [List.mem_map] at hmem
        obtain ⟨r, hr, hlen⟩ := hmem
        unfold detect_table_data
        intro hnil
        rw [List.map_eq_nil_iff, List.filter_eq_nil_iff] at hnil
        exact hnil r hr (by simp [hlen])
      rw [if_neg htd]
      have hmd : convert_pdf_table_to_markdown
          ((detect_table_data blocks).map (fun r => r.map some)) pageNum 0 ≠ [] := by
        obtain ⟨row0, tdrest, htd0⟩ :
            ∃ row0 tdrest, detect_table_data blocks = row0 :: tdrest := by
          rcases h : detect_table_data blocks with _ | ⟨a, b⟩
          · exact absurd h htd
          · exact ⟨a, b, rfl⟩
        obtain ⟨hlen0, hcells0⟩ :=
          detect_table_data_cells (show row0 ∈ detect_table_data blocks from
            htd0 ▸ List.mem_cons_self ..)
        obtain ⟨c0, crest, hrow0⟩ : ∃ c0 crest, row0 = c0 :: crest := by
          rcases h : row0 with _ | ⟨a, b⟩
          · exfalso
            rw [h] at hlen0
            simp only [List.length_nil] at hlen0
            have hm := hconds.1
            omega
          · exact ⟨a, b, rfl⟩
        have hc0 := hcells0 c0 (by rw [hrow0]; exact List.mem_cons_self ..)
        have hcl : clean_pdf_cell (some c0) ≠ "" :=
          clean_pdf_cell_of_stripped hc0.1 hc0.2
        unfold convert_pdf_table_to_markdown
        rw [if_neg (show ¬ (detect_table_data blocks).map (fun r => r.map some) = []
          by rw [htd0]; simp)]
        rw [if_neg (show ¬ pdf_filtered_rows
            ((detect_table_data blocks).map (fun r => r.map some)) = [] from ?_)]
        · simp
        · apply List.ne_nil_of_mem (a := (row0.map some).map clean_pdf_cell)
          unfold pdf_filtered_rows
          rw [List.mem_filter]
          constructor
          · unfold pdf_cleaned_rows
            rw [List.mem_map]
            refine ⟨row0.map some, ?_, rfl⟩
            rw [htd0]
            exact List.mem_map_of_mem _ (List.mem_cons_self ..)
          · rw [List.any_eq_true]
            refine ⟨clean_pdf_cell (some c0), ?_, by simpa using hcl⟩
            rw [List.mem_map]
            refine ⟨some c0, ?_, rfl⟩
            rw [hrow0]
            exact List.mem_map_of_mem _ (List.mem_cons_self ..)
      rw [if_neg hmd]
      simp [hconds]
    · rw [if_neg hacc]
      simp only [ne_eq, not_true_eq_false, false_iff]
      intro hconds
      apply hacc
      unfold detect_accept
      simp only [Bool.and_eq_true, decide_eq_true_eq]
      exact ⟨hconds.2, hconds.1⟩

/-- Witness for C3's general acceptance criterion, discharged at Scenario A
itself. -/
theorem claim_C3_witness :
    (detect_tables_from_text scenarioA 0).1 ≠ [] ↔
      (1 < detect_mode scenarioA ∧
       3 * (detect_rows scenarioA).length ≤
         5 * (((detect_rows scenarioA).map List.length).count (detect_mode scenarioA))) :=
  claim_C3_text_table_detection.2 scenarioA 0 (by decide) (by decide)

theorem ordered_go_shape (std det : List TableInfo) (lastIdx : List Nat)
    (minIdx : Int) (images : List String) (bi ii : Nat) (blk : PBlock)
    (rest : List PBlock) :
    ∃ (pre : List CBlock) (ii2 : Nat),
      ordered_go std det lastIdx minIdx images bi ii (blk :: rest) =
        pre ++ ordered_go std det lastIdx minIdx images (bi + 1) ii2 rest ∧
      pre.length ≤ 1 ∧
      ∀ b ∈ pre, b.sort_key = (b.y_pos, (bi : Int)) := by
  cases blk with
  | text bbox lines =>
    simp only [ordered_go]
    split
    · exact ⟨[], ii, by simp, by simp, by simp⟩
    · split
      · split
        · cases det with
          | nil => exact ⟨[], ii, by simp, by simp, by simp⟩
          | cons d ds =>
            refine ⟨[⟨CType.table, CVal.lines d.content, bbox.y0,
              (bbox.y0, (bi : Int))⟩], ii, by simp, by simp, ?_⟩
            intro b hb
            rw [List.mem_singleton] at hb
            rw [hb]
        · exact ⟨[], ii, by simp, by simp, by simp⟩
      · cases hp : block_text_parts lines with
        | nil => exact ⟨[], ii, by simp, by simp, by simp⟩
        | cons p ps =>
          refine ⟨[⟨CType.text, CVal.str (String.intercalate " " (p :: ps)), bbox.y0,
            (bbox.y0, (bi : Int))⟩], ii, by simp, by simp, ?_⟩
          intro b hb
          rw [List.mem_singleton] at hb
          rw [hb]
  | image bbox =>
    simp only [ordered_go]
    cases hg : images.get? ii with
    | none => exact ⟨[], ii, by simp, by simp, by simp⟩
    | some url =>
      refine ⟨[⟨CType.image, CVal.str ("![图片](" ++ url ++ ")"), bbox.y0,
        (bbox.y0, (bi : Int))⟩], ii + 1, by simp, by simp, ?_⟩
      intro b hb
      rw [List.mem_singleton] at hb
      rw [hb]

theorem ordered_go_props (std det : List TableInfo) (lastIdx : List Nat)
    (minIdx : Int) (images : List String) :
    ∀ (blocks : List PBlock) (bi ii : Nat) (b : CBlock),
      b ∈ ordered_go std det lastIdx minIdx images bi ii blocks →
      (bi : Int) ≤ b.sort_key.2 ∧ b.sort_key.1 = b.y_pos := by
  intro blocks
  induction blocks with
  | nil =>
    intro bi ii b hb
    simp [ordered_go] at hb
  | cons blk rest ih =>
    intro bi ii b hb
    obtain ⟨pre, ii2, heq, _, hpre⟩ :=
      ordered_go_shape std det lastIdx minIdx images bi ii blk rest
    rw [heq, List.mem_append] at hb
    rcases hb with h | h
    · have hk := hpre b h
      constructor
      · rw [hk]
      · rw [hk]
    · have := ih (bi + 1) ii2 b h
      refine ⟨le_trans ?_ this.1, this.2⟩
      exact_mod_cast Nat.le_succ bi

theorem ordered_go_countP (std det : List TableInfo) (lastIdx : List Nat)
    (minIdx : Int) (images : List String) :
    ∀ (blocks : List PBlock) (bi ii : Nat) (n : Nat),
      (ordered_go std det lastIdx minIdx images bi ii blocks).countP
        (fun b => decide (b.sort_key.2 = (n : Int))) ≤ 1 := by
  intro blocks
  induction blocks with
  | nil =>
    intro bi ii n
    simp [ordered_go]
  | cons blk rest ih =>
    intro bi ii n
    obtain ⟨pre, ii2, heq, hlen, hpre⟩ :=
      ordered_go_shape std det lastIdx minIdx images bi ii blk rest
    rw [heq, List.countP_append]
    by_cases hn : (n : Int) = (bi : Int)
    · have htail : (ordered_go std det lastIdx minIdx images (bi + 1) ii2 rest).countP
          (fun b => decide (b.sort_key.2 = (n : Int))) = 0 := by
        rw [List.countP_eq_zero]
        intro b hb
        have hge := (ordered_go_props std det lastIdx minIdx images rest
          (bi + 1) ii2 b hb).1
        simp only [decide_eq_true_eq]
        intro hsnd
        rw [hsnd, hn] at hge
        have : (bi : Int) + 1 ≤ (bi : Int) := by exact_mod_cast hge
        omega
      rw [htail]
      calc pre.countP _ + 0 ≤ pre.length := by
            rw [Nat.add_zero]
            exact List.countP_le_length _
        _ ≤ 1 := hlen
    · have hpre0 : pre.countP (fun b => decide (b.sort_key.2 = (n : Int))) = 0 := by
        rw [List.countP_eq_zero]
        intro b hb
        have hk := hpre b hb
        simp only [decide_eq_true_eq]
        intro hsnd
        rw [hk] at hsnd
        exact hn (by rw [← hsnd])
      rw [hpre0, Nat.zero_add]
      exact ih (bi + 1) ii2 n

/-- C1 (amended).  Exactly-once weakens to at-most-once: no structural block
index contributes to more than one emitted ContentBlock.  (Omission is
possible — see the counterexample — for picture blocks with no matching
extracted image, empty text blocks, text inside a native table's bbox, and
the non-first indices consumed by a detected table.) -/
theorem claim_C1_at_most_once (blocks : List PBlock) (tables : List TableInfo)
    (images : List String) (lastIdx : List Nat) (n : Nat) :
    (get_ordered_content_blocks blocks tables images lastIdx).countP
      (fun b => decide (b.sort_key.2 = (n : Int))) ≤ 1 := by
  unfold get_ordered_content_blocks
  rw [(List.perm_insertionSort keyLe _).countP_eq]
  rw [List.countP_append]
  have hacc : ((standard_tables tables).map (fun t =>
      (⟨CType.table, CVal.lines t.content, t.y_pos, (t.y_pos, -1)⟩ : CBlock))).countP
      (fun b => decide (b.sort_key.2 = (n : Int))) = 0 := by
    rw [List.countP_eq_zero]
    intro b hb
    rw [List.mem_map] at hb
    obtain ⟨t, _, hbt⟩ := hb
    simp only [decide_eq_true_eq]
    intro hsnd
    rw [← hbt] at hsnd
    simp only at hsnd
    omega
  rw [hacc, Nat.zero_add]
  exact ordered_go_countP _ _ _ _ _ blocks 0 0 n

/-- C1 counterexample.  A page whose only structural unit is a picture block
(index 0) with an empty extracted-image list: the orderer emits only the
native table, and no emitted ContentBlock carries structural index 0 — the
unit is omitted, refuting "none is omitted". -/
theorem claim_C1_counterexample :
    get_ordered_content_blocks [PBlock.image ⟨0, 60, 10, 70⟩]
        [⟨["| t |"], some ⟨0, 0, 10, 10⟩, 0, TKind.standard⟩] [] [] =
      [⟨CType.table, CVal.lines ["| t |"], 0, (0, -1)⟩] ∧
    (get_ordered_content_blocks [PBlock.image ⟨0, 60, 10, 70⟩]
        [⟨["| t |"], some ⟨0, 0, 10, 10⟩, 0, TKind.standard⟩] [] []).countP
      (fun b => decide (b.sort_key.2 = (0 : Int))) = 0 := by
  refine ⟨by decide, by decide⟩

/-- C2.  The orderer's output is sorted by the lexicographic `sort_key`
order (non-decreasing `y_position`, ties broken by ascending structural
index); every block's `sort_key` starts with its `y_position`; text and
image blocks carry their non-negative block index as tie-break; and every
native table (whose recorded `y_pos` is its bbox's `y0`, as the extractor
sets it) appears in the output with sort key `(bbox.y0, -1)`, which is
smaller than any text/image key at the same `y`. -/
theorem claim_C2_sorted_output (blocks : List PBlock) (tables : List TableInfo)
    (images : List String) (lastIdx : List Nat) :
    List.Sorted keyLe (get_ordered_content_blocks blocks tables images lastIdx) ∧
    (∀ b ∈ get_ordered_content_blocks blocks tables images lastIdx,
        b.sort_key.1 = b.y_pos) ∧
    (∀ b ∈ get_ordered_content_blocks blocks tables images lastIdx,
        (b.ctype = CType.text ∨ b.ctype = CType.image) → 0 ≤ b.sort_key.2) ∧
    (∀ t ∈ tables, t.kind = TKind.standard → ∀ tb, t.bbox = some tb →
        t.y_pos = tb.y0 →
        (⟨CType.table, CVal.lines t.content, t.y_pos, (tb.y0, -1)⟩ : CBlock) ∈
          get_ordered_content_blocks blocks tables images lastIdx) := by
  have hmem : ∀ b, b ∈ get_ordered_content_blocks blocks tables images lastIdx ↔
      (b ∈ (standard_tables tables).map (fun t =>
        (⟨CType.table, CVal.lines t.content, t.y_pos, (t.y_pos, -1)⟩ : CBlock)) ∨
       b ∈ ordered_go (standard_tables tables) (detected_tables tables) lastIdx
         (min_table_idx lastIdx) images 0 0 blocks) := by
    intro b
    unfold get_ordered_content_blocks
    rw [(List.perm_insertionSort keyLe _).mem_iff, List.mem_append]
  refine ⟨?_, ?_, ?_, ?_⟩
  · exact List.sorted_insertionSort keyLe _
  · intro b hb
    rcases (hmem b).mp hb with h | h
    · rw [List.mem_map] at h
      obtain ⟨t, _, hbt⟩ := h
      rw [← hbt]
    · exact (ordered_go_props _ _ _ _ _ blocks 0 0 b h).2
  · intro b hb hty
    rcases (hmem b).mp hb with h | h
    · rw [List.mem_map] at h
      obtain ⟨t, _, hbt⟩ := h
      exfalso
      rcases hty with hty | hty <;> (rw [← hbt] at hty; simp at hty)
    · exact (ordered_go_props _ _ _ _ _ blocks 0 0 b h).1
  · intro t ht hkind tb hbb hy
    rw [hmem]
    left
    rw [List.mem_map]
    refine ⟨t, ?_, ?_⟩
    · unfold standard_tables
      rw [List.mem_filter]
      refine ⟨ht, ?_⟩
      rw [hkind, hbb]
      simp
    · rw [hy]

/-- Witness for C2 at a one-table, one-text page. -/
theorem claim_C2_witness :
    (⟨CType.table, CVal.lines ["| t |"], 0, (0, -1)⟩ : CBlock) ∈
      get_ordered_content_blocks
        [PBlock.text ⟨0, 20, 10, 30⟩ [⟨⟨0, 20, 10, 30⟩, [⟨"x"⟩]⟩]]
        [⟨["| t |"], some ⟨0, 0, 10, 10⟩, 0, TKind.standard⟩] [] [] ∧
    ((⟨CType.table, CVal.lines ["| t |"], 0, (0, -1)⟩ : CBlock).sort_key.1 =
      (⟨CType.table, CVal.lines ["| t |"], 0, (0, -1)⟩ : CBlock).y_pos) := by
  have hy := (claim_C2_sorted_output
    [PBlock.text ⟨0, 20, 10, 30⟩ [⟨⟨0, 20, 10, 30⟩, [⟨"x"⟩]⟩]]
    [⟨["| t |"], some ⟨0, 0, 10, 10⟩, 0, TKind.standard⟩] [] []).2.1
    ⟨CType.table, CVal.lines ["| t |"], 0, (0, -1)⟩ (by decide)
  have h := (claim_C2_sorted_output
    [PBlock.text ⟨0, 20, 10, 30⟩ [⟨⟨0, 20, 10, 30⟩, [⟨"x"⟩]⟩]]
    [⟨["| t |"], some ⟨0, 0, 10, 10⟩, 0, TKind.standard⟩] [] []).2.2.2
    ⟨["| t |"], some ⟨0, 0, 10, 10⟩, 0, TKind.standard⟩
    (by decide) rfl ⟨0, 0, 10, 10⟩ rfl rfl
  exact ⟨h, hy⟩

theorem append_ne_empty_left (s t : String) (h : s.data ≠ []) : s ++ t ≠ "" := by
  rw [string_ne_empty_iff_data, String.data_append]
  intro he
  exact h (List.append_eq_nil.mp he).1

/-- C9.  A missing file, or any extension outside the supported set
(docx, pdf, xlsx, xls, pptx, doc — including the dead-end `.ppt`), makes
`parse_document` return the failure shape (success false, empty markdown,
non-empty error message) instead of raising; and inside `_parse_docx`, a
table whose conversion raises is replaced by the visible placeholder line
while the remaining body elements are still processed. -/
theorem claim_C9_error_isolation :
    (∀ env : DocEnv, env.fileExists = false →
        (parse_document env).success = false ∧
        (parse_document env).markdown = "" ∧
        (parse_document env).error = some ("File does not exist: " ++ env.fileName) ∧
        ("File does not exist: " ++ env.fileName) ≠ "") ∧
    (∀ env : DocEnv, env.fileExists = true →
        pyLower env.suffix ∉
          [".docx", ".pdf", ".xlsx", ".xls", ".pptx", ".doc"] →
        (parse_document env).success = false ∧
        (parse_document env).markdown = "" ∧
        (parse_document env).error =
          some (if pyLower env.suffix = ".ppt" then ppt_message
                else unsupported_message (pyLower env.suffix)) ∧
        (if pyLower env.suffix = ".ppt" then ppt_message
         else unsupported_message (pyLower env.suffix)) ≠ "") ∧
    (∀ (tables : List (Except String (List String))) (allTexts : List String)
        (f : Bool) (ti : Nat) (rest : List BodyElem) (msg : String),
        tables.get? ti = some (Except.error msg) →
        docx_body_go tables allTexts f ti (BodyElem.tbl :: rest) =
          table_failed_line (ti + 1) ::
            docx_body_go tables allTexts f (ti + 1) rest) := by
  refine ⟨?_, ?_, ?_⟩
  · intro env h
    have hmsg : ("File does not exist: " : String) ++ env.fileName ≠ "" :=
      append_ne_empty_left _ _ (by decide)
    unfold parse_document
    rw [h]
    exact ⟨rfl, rfl, rfl, hmsg⟩
  · intro env h hnotin
    have h1 : pyLower env.suffix ≠ ".docx" := fun he => hnotin (by rw [he]; simp)
    have h2 : pyLower env.suffix ≠ ".pdf" := fun he => hnotin (by rw [he]; simp)
    have h3 : pyLower env.suffix ≠ ".xlsx" := fun he => hnotin (by rw [he]; simp)
    have h4 : pyLower env.suffix ≠ ".xls" := fun he => hnotin (by rw [he]; simp)
    have h5 : pyLower env.suffix ≠ ".pptx" := fun he => hnotin (by rw [he]; simp)
    have h6 : pyLower env.suffix ≠ ".doc" := fun he => hnotin (by rw [he]; simp)
    have hmsg : unsupported_message (pyLower env.suffix) ≠ "" := by
      unfold unsupported_message
      apply append_ne_empty_left
      rw [String.data_append]
      simp
    unfold parse_document
    rw [h]
    simp only [Bool.not_true, Bool.false_eq_true, if_false, if_neg h1, if_neg h2,
      if_neg h3, if_neg h4, if_neg h5, if_neg h6]
    have hd : (if pyLower env.suffix = ".ppt" then failRes ppt_message
        else failRes (unsupported_message (pyLower env.suffix))) =
        failRes (if pyLower env.suffix = ".ppt" then ppt_message
          else unsupported_message (pyLower env.suffix)) := by
      by_cases h7 : pyLower env.suffix = ".ppt" <;> simp [h7]
    rw [hd]
    refine ⟨rfl, rfl, rfl, ?_⟩
    by_cases h7 : pyLower env.suffix = ".ppt"
    · rw [if_pos h7]
      decide
    · rw [if_neg h7]
      exact hmsg
  · intro tables allTexts f ti rest msg hget
    simp only [docx_body_go, hget]

/-- Witness for C9 at concrete environments: a missing file, a `.txt`
extension, the dead-end `.ppt` extension, and a docx body whose only table
raises. -/
theorem claim_C9_witness :
    (parse_document ⟨false, ".docx", "m.docx",
        fun _ => ParseOutcome.ok ⟨true, "ok", none, []⟩, none⟩).success = false ∧
    (parse_document ⟨true, ".txt", "a.txt",
        fun _ => ParseOutcome.ok ⟨true, "ok", none, []⟩, none⟩).error =
      some (unsupported_message ".txt") ∧
    (parse_document ⟨true, ".ppt", "p.ppt",
        fun _ => ParseOutcome.ok ⟨true, "ok", none, []⟩, none⟩).error =
      some ppt_message ∧
    docx_body_go [Except.error "boom"] [] true 0 [BodyElem.tbl] =
      [table_failed_line 1] := by
  refine ⟨?_, ?_, ?_, ?_⟩
  · exact (claim_C9_error_isolation.1 _ rfl).1
  · rw [(claim_C9_error_isolation.2.1 _ rfl (by decide)).2.2.1]
    decide
  · rw [(claim_C9_error_isolation.2.1 _ rfl (by decide)).2.2.1]
    decide
  · rw [claim_C9_error_isolation.2.2 [Except.error "boom"] [] true 0 [] "boom" rfl]
    rfl

end WebCode
